import Mathlib

/-!
# Verification of the staging deployer (`dp-stag`)

Shallow embedding of `src/lib/deploy.js`, `src/lib/ssh.js` and `src/index.js`:
the shell-argument escaper, the project-name validator, the git remote
resolver, the remote `.env` mutator `updateRemoteEnv`, and the top-level
`deploy` sequencer.  Strings are modelled as `List Char`; remote execution is
modelled through an explicit oracle describing the external world (git
metadata, SSH reachability, per-command session failures and exit statuses,
interactive menu choices).
-/

set_option autoImplicit false

namespace DeployStaging

/-! ## Shell-argument escaper (`escapeShellArg`, deploy.js lines 47–51) -/

/-- Expansion of one character under the JS replacement
`arg.replace(/'/g, "'\\''")`: a single quote becomes the four characters
quote, backslash, quote, quote; every other character is kept. -/
def escChar (c : Char) : List Char :=
  if c = '\'' then ['\'', '\\', '\'', '\''] else [c]

/-- The global regex replacement `arg.replace(/'/g, "'\\''")` from the source:
each character is expanded independently. -/
def jsReplaceQuote (arg : List Char) : List Char :=
  (arg.map escChar).flatten

/-- `escapeShellArg` from deploy.js: wrap in single quotes after replacing each
embedded single quote by the closing/escaped/reopening sequence. -/
def escapeShellArg (arg : List Char) : List Char :=
  '\'' :: jsReplaceQuote arg ++ ['\'']

/-! ## A conservative POSIX shell word reader (the oracle for claim C2)

Modelled from the spec: the shell-evaluation oracle of §8.1 / §4.1.  It reads
one word under POSIX `sh` quoting rules — backslash escapes the next character,
single quotes protect everything up to the matching quote — and returns `none`
as soon as the input contains an unquoted metacharacter or expansion trigger
(whitespace, `$`, backquote, `;`, …), i.e. whenever the input is not one single
literal argument. -/

/-- Characters that, unquoted, are shell metacharacters or expansion/globbing
triggers; the reader refuses them, so a `some` answer certifies one literal
word. -/
def isShellSpecial (c : Char) : Bool :=
  c = ' ' || c = '\t' || c = '\n' || c = '$' || c = '\x60' || c = '"' ||
  c = ';' || c = '&' || c = '|' || c = '<' || c = '>' || c = '(' ||
  c = ')' || c = '*' || c = '?' || c = '[' || c = ']' || c = '~' ||
  c = '#' || c = '!' || c = '\x7b' || c = '\x7d'

/-- Lexer state: outside quotes, inside a single-quoted region, or right after
an unquoted backslash (the next character is taken literally). -/
inductive LexState where
  | norm
  | squote
  | escNext
deriving DecidableEq

/-- One-word shell reader.  In state `norm`: a quote opens a single-quoted
region, a backslash makes the next character literal, a special character
aborts, end of input ends the word.  In state `squote`: everything except the
closing quote is literal; an unterminated quote aborts. -/
def lexAux : LexState → List Char → List Char → Option (List Char)
  | .norm, [], acc => some acc.reverse
  | .norm, c :: rest, acc =>
      if c = '\'' then lexAux .squote rest acc
      else if c = '\\' then lexAux .escNext rest acc
      else if isShellSpecial c then none
      else lexAux .norm rest (c :: acc)
  | .escNext, [], _ => none
  | .escNext, d :: r, acc => lexAux .norm r (d :: acc)
  | .squote, [], _ => none
  | .squote, c :: rest, acc =>
      if c = '\'' then lexAux .norm rest acc
      else lexAux .squote rest (c :: acc)

/-- Parse an entire string as exactly one literal shell word. -/
def shellParseOneLiteralWord (l : List Char) : Option (List Char) :=
  lexAux .norm l []

/-! ## Project-name validator (`isValidProjectName`, deploy.js lines 41–45) -/

/-- One character of the regex class `[a-zA-Z0-9._-]`.  `Char.isAlpha` and
`Char.isDigit` test exactly the ASCII ranges, as the regex does. -/
def isProjChar (c : Char) : Bool :=
  c.isAlpha || c.isDigit || c == '.' || c == '_' || c == '-'

/-- The validator `/^[a-zA-Z0-9._-]+$/.test(name)`: a non-empty string all of
whose characters are in the class. -/
def isValidProjectName (name : List Char) : Bool :=
  !name.isEmpty && name.all isProjChar

/-! ## Environment-file mutator (`updateRemoteEnv`, deploy.js lines 53–124) -/

/-- First character of the env-key regex `^[a-zA-Z_][a-zA-Z0-9_]*$`. -/
def isKeyStart (c : Char) : Bool :=
  c.isAlpha || c == '_'

/-- Continuation character of the env-key regex. -/
def isKeyChar (c : Char) : Bool :=
  c.isAlpha || c.isDigit || c == '_'

/-- The key validation `/^[a-zA-Z_][a-zA-Z0-9_]*$/.test(key)` at the top of
`updateRemoteEnv`. -/
def isValidEnvKey : List Char → Bool
  | [] => false
  | c :: rest => isKeyStart c && rest.all isKeyChar

/-- The remote project directory `/var/www/<project>` built by `deploy`
(deploy.js line 186). -/
def projectPathOf (project : List Char) : List Char :=
  "/var/www/".data ++ project

/-- The probe command `grep "^KEY=" <projectPath>/.env` (deploy.js line 65). -/
def checkCmd (pp key : List Char) : List Char :=
  "grep \"^".data ++ key ++ "=\" ".data ++ pp ++ "/.env".data

/-- The escaped line `escapeShellArg(key + "=" + value)` (deploy.js
lines 109–110). -/
def escapedLineOf (key value : List Char) : List Char :=
  escapeShellArg (key ++ '=' :: value)

/-- The replace-branch command chain (deploy.js line 112):
filter out the key's lines into a temporary file, append the escaped line,
rename over the original. -/
def safeUpdateCmd (pp key value : List Char) : List Char :=
  "grep -v \"^".data ++ key ++ "=\" ".data ++ pp ++ "/.env > ".data ++ pp ++
  "/.env.tmp && echo ".data ++ escapedLineOf key value ++ " >> ".data ++ pp ++
  "/.env.tmp && mv ".data ++ pp ++ "/.env.tmp ".data ++ pp ++ "/.env".data

/-- The append-branch command `echo <escapedLine> >> <projectPath>/.env`
(deploy.js line 120). -/
def appendCmd (pp key value : List Char) : List Char :=
  "echo ".data ++ escapedLineOf key value ++ " >> ".data ++ pp ++ "/.env".data

/-- A line matches the grep pattern `^KEY=` exactly when `KEY=` is a prefix of
the line (the key's characters are regex-literal). -/
def lineHasKey (key line : List Char) : Bool :=
  (key ++ ['=']).isPrefixOf line

/-- The single line the shell appends for `echo <escapedLine> >> file`: the one
literal word the escaped line parses to (for newline-free values it is exactly
`key=value`, see `echoedLine_eq`). -/
def echoedLine (key value : List Char) : List Char :=
  (shellParseOneLiteralWord (escapedLineOf key value)).getD []

/-- Exit status of the grep probe: `0` when some line carries the `key=`
prefix, `1` otherwise. -/
def probeExitOf (key : List Char) (file : List (List Char)) : Nat :=
  if file.any (lineHasKey key) then 0 else 1

/-- Net effect of `updateRemoteEnv` over a healthy session, as the pair
(remote commands submitted, resulting `.env` lines).

Modelled from the spec: the transport contract of §4.3 — `ssh.execCommand`
resolves with a `CommandResult` whatever the command's exit status and throws
only on a session-level failure.  Hence on a healthy session the probe's
`await` always succeeds and the replace branch always runs.  Its command chain
is joined by `&&`: `grep -v` exits non-zero when it selects no line (the filter
removed every line, or the file was empty), in which case the `echo` and `mv`
never run and `.env` keeps its old content; otherwise the filtered lines plus
the echoed line replace the file.  Values are assumed newline-free (§4.4). -/
def updateRemoteEnvModel (pp key value : List Char) (file : List (List Char)) :
    List (List Char) × List (List Char) :=
  if isValidEnvKey key = false then ([], file)
  else
    let kept := file.filter (fun l => !lineHasKey key l)
    let newFile := if kept.isEmpty then file else kept ++ [echoedLine key value]
    ([checkCmd pp key, safeUpdateCmd pp key value], newFile)

/-! ## Git remote resolver (`getGitRepoInfo`, deploy.js lines 23–39) -/

/-- JS whitespace trimmed by `String.trim` (the usual cases). -/
def wsp (c : Char) : Bool :=
  c = ' ' || c = '\t' || c = '\n' || c = '\r'

/-- The `.trim()` applied to the `git config` output. -/
def trimChars (l : List Char) : List Char :=
  ((l.dropWhile wsp).reverse.dropWhile wsp).reverse

/-- Deterministic residue of matching `([^\/]+)\/([^\/]+?)(\.git)?$` right
after a `[:\/]` separator: the first group is the maximal run without `/`, a
literal `/` must follow, and the rest must be slash-free; the lazy second group
takes everything before a strippable `.git` suffix (a bare `.git` rest cannot
be stripped because the second group needs at least one character). -/
def parseAfterSep (t : List Char) : Option (List Char × List Char) :=
  if (t.takeWhile (· != '/')).isEmpty then none
  else
    match t.drop (t.takeWhile (· != '/')).length with
    | [] => none
    | c :: r =>
      if c = '/' then
        if r.any (· == '/') then none
        else if r.isEmpty then none
        else if ".git".data.isSuffixOf r = true ∧ 4 < r.length then
          some (t.takeWhile (· != '/'), r.take (r.length - 4))
        else some (t.takeWhile (· != '/'), r)
      else none

/-- Leftmost-match search of `remoteUrl.match(/[:\/]([^\/]+)\/([^\/]+?)(\.git)?$/)`:
scan for the first separator position whose suffix matches, and return
`owner/repo` from the two groups. -/
def scanSlug : List Char → Option (List Char)
  | [] => none
  | c :: t =>
    if c = ':' ∨ c = '/' then
      match parseAfterSep t with
      | some (a, b) => some (a ++ '/' :: b)
      | none => scanSlug t
    else scanSlug t

/-- `getGitRepoInfo`: `none` when the local `git config --get
remote.origin.url` command fails (the catch branch), otherwise the slug parsed
from the trimmed URL, or `none` when the pattern does not match.  The oracle
argument is the command's output. -/
def getGitRepoInfo : Option (List Char) → Option (List Char)
  | none => none
  | some url => scanSlug (trimChars url)

/-! ## Path resolution (claim C10's oracle) -/

/-- Modelled from the spec: the remote filesystem contract mounts projects at
`/var/www/<project>` (§6); this is lexical POSIX resolution of such a path
into components, where empty and `.` components vanish and `..` removes the
preceding component. -/
def resolveAbs (p : List Char) : List (List Char) :=
  (p.splitOn '/').foldl
    (fun acc comp =>
      if comp = [] ∨ comp = ['.'] then acc
      else if comp = ['.', '.'] then acc.dropLast
      else acc ++ [comp]) []

/-! ## Deployment sequencer (`deploy`, deploy.js lines 126–313)

The external world is an `Oracle`: git metadata, the repo map, credentials,
SSH reachability, a per-command session-failure predicate and exit-status
assignment (indexed by submission order), whether the remote git config
already lists the project as a safe directory, and the actions the user picks
in the interactive menu before choosing Continue Deployment. -/

/-- Remote command `whoami` (deploy.js line 182). -/
def whoamiCmd : List Char := "whoami".data

/-- Remote command `sudo -i` (deploy.js line 184). -/
def sudoICmd : List Char := "sudo -i".data

/-- Remote query for already-registered safe directories (deploy.js
lines 191–193). -/
def safeDirQueryCmd : List Char :=
  "git config --global --get-all safe.directory".data

/-- Remote command registering the project as a safe directory (deploy.js
lines 195–198). -/
def safeDirAddCmd (pp : List Char) : List Char :=
  "git config --global --add safe.directory ".data ++ pp

/-- Remote ownership fix (deploy.js line 211). -/
def chownCmd (pp : List Char) : List Char :=
  "sudo chown -R $(whoami) ".data ++ pp

/-- The source-sync command (deploy.js line 219). -/
def pullCmd : List Char := "git pull origin staging".data

/-- Prisma client generation (deploy.js lines 250, 279). -/
def prismaGenCmd : List Char := "npx prisma generate".data

/-- Prisma schema push (deploy.js line 254). -/
def dbPushCmd : List Char := "npx prisma db push".data

/-- Framework build (deploy.js lines 258, 284). -/
def buildCmd : List Char := "yarn build".data

/-- Supervisor restart with fallback target (deploy.js lines 292–295). -/
def pm2Cmd (project : List Char) : List Char :=
  "pm2 restart ".data ++ project ++ " || pm2 restart index".data

/-- Observable events of one `deploy` invocation. -/
inductive Event where
  | processExit (code : Nat)
  | connected
  | connectFailed
  | remoteCmd (cmd : List Char) (exitStatus : Nat)
  | interactiveEntered
  | aiCall
  | deployFailedLog
  | dispose
deriving DecidableEq

/-- Menu actions of the interactive loop (deploy.js lines 229–268); Continue
Deployment is the implicit end of the list. -/
inductive IAction where
  | prismaGenerate
  | prismaDbPush
  | runBuild
  | updateEnv (key value : List Char)
deriving DecidableEq

/-- CLI options of the `deploy` subcommand (index.js lines 13–22). -/
structure Opts where
  project : Option (List Char)
  framework : Option (List Char)
  yes : Bool
  ai : Bool

/-- The external world of one invocation. `fails i` tells whether the `i`-th
remote command submission fails at the session level (throws); `exitOf i` is
its exit status otherwise (data, never an error, per ssh.js `runCommand`). -/
structure Oracle where
  gitRemote : Option (List Char)
  repoMap : List (List Char × List Char)
  sshHost : Option (List Char)
  sshKeyPath : Option (List Char)
  connectOk : Bool
  fails : Nat → Bool
  exitOf : Nat → Nat
  safeDirContains : Bool
  userActions : List IAction

/-- Events so far and the index of the next remote command submission. -/
structure RunState where
  evs : List Event
  idx : Nat

/-- Submit one remote command: record it with its exit status and report
whether it threw at the session level. -/
def attempt (w : Oracle) (cmd : List Char) (s : RunState) : RunState × Bool :=
  (⟨s.evs ++ [Event.remoteCmd cmd (w.exitOf s.idx)], s.idx + 1⟩, w.fails s.idx)

/-- Submit commands in order, stopping at the first session-level failure. -/
def attemptAll (w : Oracle) : List (List Char) → RunState → RunState × Bool
  | [], s => (s, false)
  | c :: cs, s =>
    let r := attempt w c s
    if r.2 then (r.1, true) else attemptAll w cs r.1

/-- One `updateRemoteEnv` call as submissions: nothing for an invalid key;
otherwise the probe, then the replace chain (its `try` block), and the append
command only from the `catch` branch, i.e. after a session-level throw of the
probe or of the replace chain. -/
def updateRemoteEnvAttempt (w : Oracle) (pp key value : List Char)
    (s : RunState) : RunState × Bool :=
  if isValidEnvKey key = false then (s, false)
  else
    let r1 := attempt w (checkCmd pp key) s
    if r1.2 then attempt w (appendCmd pp key value) r1.1
    else
      let r2 := attempt w (safeUpdateCmd pp key value) r1.1
      if r2.2 then attempt w (appendCmd pp key value) r2.1
      else (r2.1, false)

/-- Which menu entries exist: the three build actions only when the framework
is exactly the string `nestjs` (deploy.js line 229), Update .env always. -/
def actionAvailable (fw : Option (List Char)) : IAction → Bool
  | .updateEnv _ _ => true
  | _ => fw == some ("nestjs".data)

/-- The remote work of one selected menu action. -/
def actionAttempt (w : Oracle) (pp : List Char) :
    IAction → RunState → RunState × Bool
  | .prismaGenerate => attempt w prismaGenCmd
  | .prismaDbPush => attempt w dbPushCmd
  | .runBuild => attempt w buildCmd
  | .updateEnv key value => updateRemoteEnvAttempt w pp key value

/-- The interactive loop: perform each chosen action in order until Continue
Deployment; a session-level throw escapes to the outer catch. -/
def interactiveRun (w : Oracle) (pp : List Char) :
    List IAction → RunState → RunState × Bool
  | [], s => (s, false)
  | a :: rest, s =>
    let r := actionAttempt w pp a s
    if r.2 then (r.1, true) else interactiveRun w pp rest r.1

/-- `framework.toLowerCase()` comparisons. -/
def lowerStr (l : List Char) : List Char :=
  l.map Char.toLower

/-- The scripted framework tasks (deploy.js lines 272–288): prisma generate
for nestjs or expressjs, then yarn build for nestjs; nothing otherwise. -/
def frameworkCmds : Option (List Char) → List (List Char)
  | none => []
  | some f =>
    (if lowerStr f = "nestjs".data ∨ lowerStr f = "expressjs".data
      then [prismaGenCmd] else []) ++
    (if lowerStr f = "nestjs".data then [buildCmd] else [])

/-- Append a non-command event. -/
def addEvent (e : Event) (s : RunState) : RunState :=
  ⟨s.evs ++ [e], s.idx⟩

/-- The tail of the `try` block after the interactive-mode stage (deploy.js
lines 272–306): if the interactive stage threw the catch is reached, else the
scripted framework tasks, the PM2 restart, and the optional AI summary run in
order. -/
def afterInteractive (o : Opts) (w : Oracle) (project : List Char)
    (ri : RunState × Bool) : RunState × Bool :=
  if ri.2 then (ri.1, true) else
  let rf := attemptAll w (frameworkCmds o.framework) ri.1
  if rf.2 then (rf.1, true) else
  let r8 := attempt w (pm2Cmd project) rf.1
  if r8.2 then (r8.1, true) else
  (if o.ai then addEvent Event.aiCall r8.1 else r8.1, false)

/-- The `try` block of `deploy` (deploy.js lines 178–306): connect, the fixed
preamble (whoami, sudo -i, the swallowed safe.directory and chown fixes),
pull, then the interactive loop unless `--yes`, and the tail stages of
`afterInteractive`.  Returns the run state and whether the block threw
(reaching the catch). -/
def deployTry (o : Opts) (w : Oracle) (project : List Char) :
    RunState × Bool :=
  if w.connectOk = false then (⟨[Event.connectFailed], 0⟩, true)
  else
    let pp := projectPathOf project
    let s0 : RunState := ⟨[Event.connected], 0⟩
    let r1 := attempt w whoamiCmd s0
    if r1.2 then (r1.1, true) else
    let r2 := attempt w sudoICmd r1.1
    if r2.2 then (r2.1, true) else
    let r3 := attempt w safeDirQueryCmd r2.1
    let s3 := if r3.2 then r3.1
              else if w.safeDirContains then r3.1
              else (attempt w (safeDirAddCmd pp) r3.1).1
    let s4 := (attempt w (chownCmd pp) s3).1
    let r5 := attempt w pullCmd s4
    if r5.2 then (r5.1, true) else
    afterInteractive o w project
      (if o.yes then (r5.1, false)
       else interactiveRun w pp
         (w.userActions.filter (actionAvailable o.framework))
         (addEvent Event.interactiveEntered r5.1))

/-- `repoMap[repo]` followed by the truthiness test `repo && repoMap[repo]`:
an empty mapped value is falsy and counts as unresolved. -/
def lookupRepo (repo : List Char) :
    List (List Char × List Char) → Option (List Char)
  | [] => none
  | (k, v) :: rest =>
    if k = repo then (if v = [] then none else some v)
    else lookupRepo repo rest

/-- Project resolution (deploy.js lines 130–148): the explicit option, or the
repo-map entry for the slug of the local git remote. -/
def resolvedProject (o : Opts) (w : Oracle) : Option (List Char) :=
  match o.project with
  | some p => some p
  | none =>
    match getGitRepoInfo w.gitRemote with
    | some repo => lookupRepo repo w.repoMap
    | none => none

/-- The run passes every pre-connection check: a resolved, valid project name
and both credentials present. -/
def passesPreflight (o : Opts) (w : Oracle) : Bool :=
  match resolvedProject o w with
  | none => false
  | some p => isValidProjectName p && w.sshHost.isSome && w.sshKeyPath.isSome

/-- Events and process exit code of one invocation. -/
structure DeployResult where
  events : List Event
  exitCode : Nat
deriving DecidableEq

/-- The whole of `deploy`: the three `process.exit(1)` precondition paths, or
the `try`/`catch`/`finally` with `ssh.dispose()` always run last; the process
then ends with code 0 (the catch only logs). -/
def deployRun (o : Opts) (w : Oracle) : DeployResult :=
  match resolvedProject o w with
  | none => ⟨[Event.processExit 1], 1⟩
  | some project =>
    if isValidProjectName project = false then ⟨[Event.processExit 1], 1⟩
    else if w.sshHost.isNone || w.sshKeyPath.isNone then
      ⟨[Event.processExit 1], 1⟩
    else
      let r := deployTry o w project
      ⟨r.1.evs ++ (if r.2 then [Event.deployFailedLog] else []) ++
        [Event.dispose], 0⟩

/-- Event classifiers. -/
def isCmdEvent : Event → Bool
  | .remoteCmd _ _ => true
  | _ => false

/-- Recognizes the interactive-mode marker event. -/
def isIE : Event → Bool
  | .interactiveEntered => true
  | _ => false

/-- Recognizes the AI-summary event. -/
def isAiCall : Event → Bool
  | .aiCall => true
  | _ => false

/-- Recognizes the session-release event. -/
def isDispose : Event → Bool
  | .dispose => true
  | _ => false

/-- Events produced inside the `try` block after the connection event. -/
def isBodyEvent (e : Event) : Bool :=
  isCmdEvent e || isIE e || isAiCall e

/-! ## Scenario fixtures -/

/-- Options `--project demo --framework nestjs [--yes]`. -/
def demoOpts (yes : Bool) : Opts :=
  ⟨some "demo".data, some "nestjs".data, yes, false⟩

/-- A reachable world: credentials present, the session never fails, exit
statuses given by `ex`, menu choices given by `acts`. -/
def okOracle (ex : Nat → Nat) (acts : List IAction) : Oracle :=
  ⟨none, [], some "host".data, some "key".data, true, fun _ => false, ex,
    true, acts⟩

/-- A world where session establishment fails. -/
def connFailOracle : Oracle :=
  ⟨none, [], some "host".data, some "key".data, false, fun _ => false,
    fun _ => 0, true, []⟩

/-! ## Theorems -/

/-- Inside a single-quoted region, the replaced body followed by the closing
quote is consumed literally and restores the characters of the original
string. -/
theorem lexAux_squote_jsReplaceQuote (s : List Char) :
    ∀ acc : List Char,
      lexAux .squote (jsReplaceQuote s ++ ['\'']) acc =
        some (acc.reverse ++ s) := by
  induction s with
  | nil =>
      intro acc
      simp [jsReplaceQuote, lexAux]
  | cons c t ih =>
      intro acc
      by_cases hc : c = '\''
      · subst hc
        simpa [jsReplaceQuote, escChar, lexAux] using ih ('\'' :: acc)
      · simpa [jsReplaceQuote, escChar, hc, lexAux] using ih (c :: acc)

/-- Helper: the escaped string parses back as the original word. -/
theorem shellParse_escape (s : List Char) :
    shellParseOneLiteralWord (escapeShellArg s) = some s := by
  simpa [shellParseOneLiteralWord, escapeShellArg, lexAux]
    using lexAux_squote_jsReplaceQuote s []

/-- C2: `escapeShellArg s` is `s` wrapped in single quotes with each embedded
single quote replaced by the four-character sequence quote-backslash-quote-quote
and no other transformation, and parsing the result as a POSIX shell word
yields exactly one literal argument equal to `s` — for every string,
including the empty string and strings with quotes, backquotes, dollar signs,
semicolons or newlines. -/
theorem escapeShellArg_roundTrip (s : List Char) :
    escapeShellArg s = '\'' :: (s.map escChar).flatten ++ ['\''] ∧
    shellParseOneLiteralWord (escapeShellArg s) = some s :=
  ⟨rfl, shellParse_escape s⟩

/-- C5: the validator accepts exactly the non-empty strings over ASCII
letters, digits, dot, underscore and dash; it accepts `my.project-1_a` and
rejects `../etc`, `a b`, `a;rm -rf /` and the empty string. -/
theorem isValidProjectName_spec :
    (∀ name : List Char, isValidProjectName name = true ↔
      (name ≠ [] ∧ ∀ c ∈ name,
        (c.isAlpha = true ∨ c.isDigit = true ∨ c = '.' ∨ c = '_' ∨ c = '-'))) ∧
    isValidProjectName "my.project-1_a".data = true ∧
    isValidProjectName "../etc".data = false ∧
    isValidProjectName "a b".data = false ∧
    isValidProjectName "a;rm -rf /".data = false ∧
    isValidProjectName [] = false := by
  refine ⟨?_, by decide, by decide, by decide, by decide, by decide⟩
  intro name
  simp [isValidProjectName, isProjChar, List.all_eq_true, List.isEmpty_iff]
  intro _
  constructor <;> (intro h c hc; have hx := h c hc; tauto)

/-- Witness for C5 at a concrete input. -/
theorem isValidProjectName_spec_witness :
    isValidProjectName "abc".data = true :=
  (isValidProjectName_spec.1 "abc".data).mpr ⟨by decide, by decide⟩

/-- C10: the dot-only name `..` passes the project-name validator, the derived
remote path is `/var/www/..`, and that path resolves to `/var` — outside
`/var/www` (its resolved components do not start with `var, www`). -/
theorem dotdot_project_escapes_var_www :
    isValidProjectName "..".data = true ∧
    projectPathOf "..".data = "/var/www/..".data ∧
    resolveAbs (projectPathOf "..".data) = ["var".data] ∧
    (resolveAbs (projectPathOf "..".data)).take 2 ≠ ["var".data, "www".data] := by
  decide

/-- C3: on a healthy session the grep probe against a file without the key
exits 1, yet `updateRemoteEnv` still submits the filter-to-temporary-file
chain (the `try` branch) and never the direct append command — the code's own
comments say a failing grep selects the append branch, but `execCommand`
resolves on a non-zero exit status, so the catch branch is unreachable without
a session-level error. -/
theorem probe_nonzero_still_filter_branch :
    probeExitOf "BAZ".data ["OTHER=1".data] = 1 ∧
    (updateRemoteEnvModel "/var/www/demo".data "BAZ".data "x".data
        ["OTHER=1".data]).1 =
      [checkCmd "/var/www/demo".data "BAZ".data,
       safeUpdateCmd "/var/www/demo".data "BAZ".data "x".data] ∧
    appendCmd "/var/www/demo".data "BAZ".data "x".data ∉
      (updateRemoteEnvModel "/var/www/demo".data "BAZ".data "x".data
        ["OTHER=1".data]).1 := by
  decide

/-- C8: an invalid key makes `updateRemoteEnv` return before any remote
action: no command is submitted, the `.env` file is untouched, and at the
sequencer level the call is a no-op that does not throw. -/
theorem invalidKey_no_remote_action (pp key value : List Char)
    (file : List (List Char)) (h : isValidEnvKey key = false) :
    updateRemoteEnvModel pp key value file = ([], file) ∧
    (∀ (w : Oracle) (s : RunState),
      updateRemoteEnvAttempt w pp key value s = (s, false)) := by
  refine ⟨by simp [updateRemoteEnvModel, h], fun w s => ?_⟩
  simp [updateRemoteEnvAttempt, h]

/-- Witness for C8: the key `1BAD` fails the key regex and produces no remote
command. -/
theorem invalidKey_no_remote_action_witness :
    isValidEnvKey "1BAD".data = false ∧
    updateRemoteEnvModel "/var/www/demo".data "1BAD".data "v".data
      ["A=1".data] = ([], ["A=1".data]) :=
  ⟨by decide,
    (invalidKey_no_remote_action "/var/www/demo".data "1BAD".data "v".data
      ["A=1".data] (by decide)).1⟩

/-- Helper: a list is a prefix of itself extended. -/
theorem isPrefixOf_append_self (l t : List Char) :
    l.isPrefixOf (l ++ t) = true := by
  induction l with
  | nil => simp [List.isPrefixOf]
  | cons a as ih => simp [List.isPrefixOf, ih]

/-- Helper: the freshly written line `key=value` matches the grep pattern. -/
theorem lineHasKey_newLine (key value : List Char) :
    lineHasKey key (key ++ '=' :: value) = true := by
  show (key ++ ['=']).isPrefixOf (key ++ '=' :: value) = true
  rw [show key ++ '=' :: value = (key ++ ['=']) ++ value by simp]
  exact isPrefixOf_append_self _ _

/-- Helper: the shell appends exactly the line `key=value` (single-quoting is
transparent for the echoed word). -/
theorem echoedLine_eq (key value : List Char) :
    echoedLine key value = key ++ '=' :: value := by
  simp [echoedLine, escapedLineOf, shellParse_escape]

/-- Helper: keeping the complement of `p` then filtering by `p` leaves
nothing. -/
theorem filter_pos_of_filter_neg {α : Type} (p : α → Bool) (l : List α) :
    (l.filter (fun a => !p a)).filter p = [] := by
  induction l with
  | nil => rfl
  | cons a as ih => by_cases hp : p a <;> simp [hp, ih]

/-- Helper: filtering by the complement of `p` is idempotent. -/
theorem filter_neg_idem {α : Type} (p : α → Bool) (l : List α) :
    (l.filter (fun a => !p a)).filter (fun a => !p a) =
      l.filter (fun a => !p a) := by
  induction l with
  | nil => rfl
  | cons a as ih => by_cases hp : p a <;> simp [hp, ih]

/-- Helper: a filter satisfied everywhere keeps the list. -/
theorem filter_eq_self_of_all {α : Type} (p : α → Bool) (l : List α)
    (h : l.all p = true) : l.filter p = l := by
  induction l with
  | nil => rfl
  | cons a as ih =>
      simp only [List.all_cons, Bool.and_eq_true] at h
      simp [h.1, ih h.2]

/-- C1 (amended): for a valid key, whenever the file keeps at least one line
without the `key=` prefix, `updateRemoteEnv` leaves exactly one `key=`-prefixed
line, namely `key=value`, appended last, with the other lines preserved in
order, and an absent key is a pure append; when every line carries the prefix
(in particular a file whose only lines are the key's, or the empty file) the
`&&`-chain stops after `grep -v` and the file is left unchanged.  The call is
idempotent in every case. -/
theorem updateRemoteEnv_amended (pp key value : List Char)
    (file : List (List Char)) (hk : isValidEnvKey key = true) :
    ((updateRemoteEnvModel pp key value
        ((updateRemoteEnvModel pp key value file).2)).2 =
      (updateRemoteEnvModel pp key value file).2) ∧
    ((file.filter (fun l => !lineHasKey key l)).isEmpty = true →
      (updateRemoteEnvModel pp key value file).2 = file) ∧
    ((file.filter (fun l => !lineHasKey key l)).isEmpty = false →
      (updateRemoteEnvModel pp key value file).2 =
        file.filter (fun l => !lineHasKey key l) ++ [key ++ '=' :: value] ∧
      ((updateRemoteEnvModel pp key value file).2).filter
          (fun l => lineHasKey key l) = [key ++ '=' :: value] ∧
      ((updateRemoteEnvModel pp key value file).2).filter
          (fun l => !lineHasKey key l) =
        file.filter (fun l => !lineHasKey key l) ∧
      (file.all (fun l => !lineHasKey key l) = true →
        (updateRemoteEnvModel pp key value file).2 =
          file ++ [key ++ '=' :: value])) := by
  have hkv := echoedLine_eq key value
  by_cases he : (file.filter (fun l => !lineHasKey key l)).isEmpty = true
  · have hr : (updateRemoteEnvModel pp key value file).2 = file := by
      simp [updateRemoteEnvModel, hk, he]
    refine ⟨by rw [hr]; exact hr, fun _ => hr, fun hcon => ?_⟩
    rw [he] at hcon
    exact absurd hcon (by decide)
  · have he' : (file.filter (fun l => !lineHasKey key l)).isEmpty = false :=
      Bool.eq_false_iff.mpr he
    have hr : (updateRemoteEnvModel pp key value file).2 =
        file.filter (fun l => !lineHasKey key l) ++ [key ++ '=' :: value] := by
      simp [updateRemoteEnvModel, hk, he', hkv]
    have hfilterpos : ((file.filter (fun l => !lineHasKey key l)) ++
        [key ++ '=' :: value]).filter (fun l => lineHasKey key l) =
        [key ++ '=' :: value] := by
      simp [List.filter_append, filter_pos_of_filter_neg, lineHasKey_newLine]
    have hfilterneg : ((file.filter (fun l => !lineHasKey key l)) ++
        [key ++ '=' :: value]).filter (fun l => !lineHasKey key l) =
        file.filter (fun l => !lineHasKey key l) := by
      simp [List.filter_append, filter_neg_idem, lineHasKey_newLine]
    have hidem : (updateRemoteEnvModel pp key value
        ((updateRemoteEnvModel pp key value file).2)).2 =
        (updateRemoteEnvModel pp key value file).2 := by
      rw [hr]
      simp [updateRemoteEnvModel, hk, hfilterneg, he', hkv]
    refine ⟨hidem, fun hcon => absurd hcon (by simp [he']), fun _ =>
      ⟨hr, by rw [hr]; exact hfilterpos, by rw [hr]; exact hfilterneg,
        fun hall => ?_⟩⟩
    rw [hr, filter_eq_self_of_all _ _ hall]

/-- C1 (counterexample): on the file whose single line is `FOO=1`, setting
`FOO` to `3` leaves the file unchanged — the result does not contain `FOO=3`
at all, so the file does not contain exactly one `FOO=`-prefixed line carrying
the new value. -/
theorem updateRemoteEnv_counterexample :
    (updateRemoteEnvModel "/var/www/demo".data "FOO".data "3".data
        ["FOO=1".data]).2 = ["FOO=1".data] ∧
    "FOO=3".data ∉ (updateRemoteEnvModel "/var/www/demo".data "FOO".data
        "3".data ["FOO=1".data]).2 := by
  decide

/-- Witness for C1 on the spec's own example file `FOO=1`, `BAR=2`. -/
theorem updateRemoteEnv_amended_witness :
    isValidEnvKey "FOO".data = true ∧
    (updateRemoteEnvModel "/var/www/demo".data "FOO".data "3".data
      ["FOO=1".data, "BAR=2".data]).2 = ["BAR=2".data, "FOO=3".data] := by
  have h := updateRemoteEnv_amended "/var/www/demo".data "FOO".data "3".data
    ["FOO=1".data, "BAR=2".data] (by decide)
  exact ⟨by decide, ((h.2.2 (by decide)).1).trans (by decide)⟩

/-- Helper: when the residual match succeeds, both groups are non-empty and
slash-free. -/
theorem parseAfterSep_shape (t a b : List Char)
    (h : parseAfterSep t = some (a, b)) :
    a ≠ [] ∧ b ≠ [] ∧ (∀ c ∈ a, c ≠ '/') ∧ (∀ c ∈ b, c ≠ '/') := by
  unfold parseAfterSep at h
  by_cases ha : (t.takeWhile (· != '/')).isEmpty
  · simp [ha] at h
  · rw [if_neg ha] at h
    have hamem : ∀ c ∈ t.takeWhile (· != '/'), c ≠ '/' := by
      intro c hc
      have := List.mem_takeWhile_imp hc
      simpa using this
    have hane : t.takeWhile (· != '/') ≠ [] := by
      intro hnil
      exact ha (by simp [hnil])
    cases hd : t.drop (t.takeWhile (· != '/')).length with
    | nil => rw [hd] at h; exact absurd h (by simp)
    | cons c r =>
      rw [hd] at h
      dsimp only at h
      by_cases hc : c = '/'
      · rw [if_pos hc] at h
        by_cases hany : r.any (· == '/')
        · simp [hany] at h
        · rw [if_neg hany] at h
          have hrmem : ∀ c ∈ r, c ≠ '/' := by
            intro x hx
            have := List.any_eq_false.mp (Bool.eq_false_iff.mpr hany) x hx
            simpa using this
          by_cases hre : r.isEmpty
          · simp [hre] at h
          · rw [if_neg hre] at h
            by_cases hsuf : ".git".data.isSuffixOf r = true ∧ 4 < r.length
            · rw [if_pos hsuf] at h
              obtain ⟨rfl, rfl⟩ : t.takeWhile (· != '/') = a ∧
                  r.take (r.length - 4) = b := by
                have := Option.some.inj h
                exact ⟨congrArg Prod.fst this, congrArg Prod.snd this⟩
              refine ⟨hane, ?_, hamem, ?_⟩
              · intro hnil
                have h4 := hsuf.2
                have hlen : (r.take (r.length - 4)).length = 0 := by
                  rw [hnil]; rfl
                rw [List.length_take] at hlen
                omega
              · intro x hx
                exact hrmem x (List.mem_of_mem_take hx)
            · rw [if_neg hsuf] at h
              obtain ⟨rfl, rfl⟩ : t.takeWhile (· != '/') = a ∧ r = b := by
                have := Option.some.inj h
                exact ⟨congrArg Prod.fst this, congrArg Prod.snd this⟩
              refine ⟨hane, ?_, hamem, hrmem⟩
              intro hnil
              exact hre (by simp [hnil])
      · rw [if_neg hc] at h
        exact absurd h (by simp)

/-- Helper: any slug produced by the leftmost scan is `owner/repo`-shaped with
non-empty, slash-free owner and repo parts. -/
theorem scanSlug_shape (t : List Char) :
    ∀ slug : List Char, scanSlug t = some slug →
      ∃ a b, slug = a ++ '/' :: b ∧ a ≠ [] ∧ b ≠ [] ∧
        (∀ c ∈ a, c ≠ '/') ∧ (∀ c ∈ b, c ≠ '/') := by
  induction t with
  | nil => intro slug h; exact absurd h (by simp [scanSlug])
  | cons c t ih =>
      intro slug h
      rw [scanSlug] at h
      by_cases hc : c = ':' ∨ c = '/'
      · rw [if_pos hc] at h
        cases hp : parseAfterSep t with
        | none => rw [hp] at h; exact ih slug h
        | some ab =>
            obtain ⟨a, b⟩ := ab
            rw [hp] at h
            obtain rfl : a ++ '/' :: b = slug := Option.some.inj h
            obtain ⟨hane, hbne, hamem, hbmem⟩ := parseAfterSep_shape t a b hp
            exact ⟨a, b, rfl, hane, hbne, hamem, hbmem⟩
      · rw [if_neg hc] at h
        exact ih slug h

/-- C7: the resolver returns `Acme/Widgets` for the SSH-style URL
`git@github.com:Acme/Widgets.git` (stripping the `.git` suffix) and for the
HTTPS-style URL `https://github.com/Acme/Widgets` without suffix; it returns
`none` when the local git command fails and when the URL has no trailing
`owner/repo` component; and every produced slug is a well-formed
`owner/repo` — never partial. -/
theorem getGitRepoInfo_spec :
    getGitRepoInfo (some "git@github.com:Acme/Widgets.git".data) =
      some "Acme/Widgets".data ∧
    getGitRepoInfo (some "https://github.com/Acme/Widgets".data) =
      some "Acme/Widgets".data ∧
    getGitRepoInfo none = none ∧
    getGitRepoInfo (some "not-a-remote-url".data) = none ∧
    (∀ (u : Option (List Char)) (slug : List Char),
      getGitRepoInfo u = some slug →
      ∃ a b, slug = a ++ '/' :: b ∧ a ≠ [] ∧ b ≠ [] ∧
        (∀ c ∈ a, c ≠ '/') ∧ (∀ c ∈ b, c ≠ '/')) := by
  refine ⟨by decide, by decide, rfl, by decide, ?_⟩
  intro u slug h
  match u with
  | none => exact absurd h (by simp [getGitRepoInfo])
  | some url => exact scanSlug_shape _ slug h

/-- Witness for C7: the produced slug `Acme/Widgets` is well-formed. -/
theorem getGitRepoInfo_spec_witness :
    ∃ a b, ("Acme/Widgets".data : List Char) = a ++ '/' :: b ∧ a ≠ [] ∧
      b ≠ [] ∧ (∀ c ∈ a, c ≠ '/') ∧ (∀ c ∈ b, c ≠ '/') :=
  getGitRepoInfo_spec.2.2.2.2 (some "git@github.com:Acme/Widgets.git".data)
    "Acme/Widgets".data (by decide)

/-- Helper: one `updateRemoteEnv` call only appends remote-command events. -/
theorem updateRemoteEnvAttempt_evs (w : Oracle) (pp key value : List Char)
    (s : RunState) :
    ∃ Δ, (updateRemoteEnvAttempt w pp key value s).1.evs = s.evs ++ Δ ∧
      ∀ e ∈ Δ, isCmdEvent e = true := by
  unfold updateRemoteEnvAttempt
  by_cases hk : isValidEnvKey key = false
  · rw [if_pos hk]
    exact ⟨[], by simp, by simp⟩
  · rw [if_neg hk]
    by_cases h1 : w.fails s.idx = true
    · refine ⟨[Event.remoteCmd (checkCmd pp key) (w.exitOf s.idx),
        Event.remoteCmd (appendCmd pp key value) (w.exitOf (s.idx + 1))],
        ?_, ?_⟩
      · simp [attempt, h1]
      · intro e he
        simp at he
        rcases he with rfl | rfl <;> rfl
    · by_cases h2 : w.fails (s.idx + 1) = true
      · refine ⟨[Event.remoteCmd (checkCmd pp key) (w.exitOf s.idx),
          Event.remoteCmd (safeUpdateCmd pp key value) (w.exitOf (s.idx + 1)),
          Event.remoteCmd (appendCmd pp key value) (w.exitOf (s.idx + 2))],
          ?_, ?_⟩
        · simp [attempt, h1, h2]
        · intro e he
          simp at he
          rcases he with rfl | rfl | rfl <;> rfl
      · refine ⟨[Event.remoteCmd (checkCmd pp key) (w.exitOf s.idx),
          Event.remoteCmd (safeUpdateCmd pp key value) (w.exitOf (s.idx + 1))],
          ?_, ?_⟩
        · simp [attempt, h1, h2]
        · intro e he
          simp at he
          rcases he with rfl | rfl <;> rfl

/-- Helper: one menu action only appends remote-command events. -/
theorem actionAttempt_evs (w : Oracle) (pp : List Char) (a : IAction)
    (s : RunState) :
    ∃ Δ, (actionAttempt w pp a s).1.evs = s.evs ++ Δ ∧
      ∀ e ∈ Δ, isCmdEvent e = true := by
  cases a with
  | updateEnv key value => exact updateRemoteEnvAttempt_evs w pp key value s
  | prismaGenerate =>
      refine ⟨[Event.remoteCmd prismaGenCmd (w.exitOf s.idx)], rfl, ?_⟩
      intro e he; simp at he; subst he; rfl
  | prismaDbPush =>
      refine ⟨[Event.remoteCmd dbPushCmd (w.exitOf s.idx)], rfl, ?_⟩
      intro e he; simp at he; subst he; rfl
  | runBuild =>
      refine ⟨[Event.remoteCmd buildCmd (w.exitOf s.idx)], rfl, ?_⟩
      intro e he; simp at he; subst he; rfl

/-- Helper: the interactive loop only appends remote-command events. -/
theorem interactiveRun_evs (w : Oracle) (pp : List Char) :
    ∀ (acts : List IAction) (s : RunState),
      ∃ Δ, (interactiveRun w pp acts s).1.evs = s.evs ++ Δ ∧
        ∀ e ∈ Δ, isCmdEvent e = true := by
  intro acts
  induction acts with
  | nil =>
      intro s
      exact ⟨[], by simp [interactiveRun], by simp⟩
  | cons a rest ih =>
      intro s
      obtain ⟨Δ1, h1, hc1⟩ := actionAttempt_evs w pp a s
      simp only [interactiveRun]
      split
      · exact ⟨Δ1, h1, hc1⟩
      · obtain ⟨Δ2, h2, hc2⟩ := ih (actionAttempt w pp a s).1
        refine ⟨Δ1 ++ Δ2, ?_, ?_⟩
        · rw [h2, h1, List.append_assoc]
        · intro e he
          rcases List.mem_append.mp he with h | h
          exacts [hc1 e h, hc2 e h]

/-- Helper: a sequence of scripted commands only appends remote-command
events. -/
theorem attemptAll_evs (w : Oracle) :
    ∀ (cs : List (List Char)) (s : RunState),
      ∃ Δ, (attemptAll w cs s).1.evs = s.evs ++ Δ ∧
        ∀ e ∈ Δ, isCmdEvent e = true := by
  intro cs
  induction cs with
  | nil =>
      intro s
      exact ⟨[], by simp [attemptAll], by simp⟩
  | cons c rest ih =>
      intro s
      simp only [attemptAll]
      split
      · refine ⟨[Event.remoteCmd c (w.exitOf s.idx)], rfl, ?_⟩
        intro e he; simp at he; subst he; rfl
      · obtain ⟨Δ2, h2, hc2⟩ := ih (attempt w c s).1
        refine ⟨Event.remoteCmd c (w.exitOf s.idx) :: Δ2, ?_, ?_⟩
        · rw [h2]
          simp [attempt]
        · intro e he
          rcases List.mem_cons.mp he with rfl | h
          · rfl
          · exact hc2 e h

/-- Helper: when the session never fails, an `updateRemoteEnv` call does not
throw. -/
theorem updateRemoteEnvAttempt_noFail (w : Oracle)
    (hf : ∀ i, w.fails i = false) (pp key value : List Char) (s : RunState) :
    (updateRemoteEnvAttempt w pp key value s).2 = false := by
  unfold updateRemoteEnvAttempt
  split
  · rfl
  · simp [attempt, hf]

/-- Helper: when the session never fails, a menu action does not throw. -/
theorem actionAttempt_noFail (w : Oracle) (hf : ∀ i, w.fails i = false)
    (pp : List Char) (a : IAction) (s : RunState) :
    (actionAttempt w pp a s).2 = false := by
  cases a with
  | updateEnv key value => exact updateRemoteEnvAttempt_noFail w hf pp key value s
  | prismaGenerate => simp [actionAttempt, attempt, hf]
  | prismaDbPush => simp [actionAttempt, attempt, hf]
  | runBuild => simp [actionAttempt, attempt, hf]

/-- Helper: when the session never fails, the interactive loop does not
throw. -/
theorem interactiveRun_noFail (w : Oracle) (hf : ∀ i, w.fails i = false)
    (pp : List Char) :
    ∀ (acts : List IAction) (s : RunState),
      (interactiveRun w pp acts s).2 = false := by
  intro acts
  induction acts with
  | nil => intro s; simp [interactiveRun]
  | cons a rest ih =>
      intro s
      simp only [interactiveRun]
      rw [if_neg (by simp [actionAttempt_noFail w hf])]
      exact ih (actionAttempt w pp a s).1

/-- Helper: no event of a run state built by the `try` block is the dispose
event. -/
def NoDispose (s : RunState) : Prop :=
  ∀ e ∈ s.evs, isDispose e = false

/-- Helper: command submissions preserve `NoDispose`. -/
theorem noDispose_attempt (w : Oracle) (c : List Char) (s : RunState)
    (h : NoDispose s) : NoDispose (attempt w c s).1 := by
  intro e he
  simp [attempt] at he
  rcases he with he | rfl
  · exact h e he
  · rfl

/-- Helper: non-dispose marker events preserve `NoDispose`. -/
theorem noDispose_addEvent (e' : Event) (he' : isDispose e' = false)
    (s : RunState) (h : NoDispose s) : NoDispose (addEvent e' s) := by
  intro e he
  simp [addEvent] at he
  rcases he with he | rfl
  · exact h e he
  · exact he'

/-- Helper: scripted command sequences preserve `NoDispose`. -/
theorem noDispose_attemptAll (w : Oracle) (cs : List (List Char))
    (s : RunState) (h : NoDispose s) : NoDispose (attemptAll w cs s).1 := by
  obtain ⟨Δ, hΔ, hc⟩ := attemptAll_evs w cs s
  intro e he
  rw [hΔ] at he
  rcases List.mem_append.mp he with h' | h'
  · exact h e h'
  · have := hc e h'
    cases e <;> simp_all [isCmdEvent, isDispose]

/-- Helper: the interactive loop preserves `NoDispose`. -/
theorem noDispose_interactiveRun (w : Oracle) (pp : List Char)
    (acts : List IAction) (s : RunState) (h : NoDispose s) :
    NoDispose (interactiveRun w pp acts s).1 := by
  obtain ⟨Δ, hΔ, hc⟩ := interactiveRun_evs w pp acts s
  intro e he
  rw [hΔ] at he
  rcases List.mem_append.mp he with h' | h'
  · exact h e h'
  · have := hc e h'
    cases e <;> simp_all [isCmdEvent, isDispose]

/-- Helper: the post-interactive tail preserves `NoDispose`. -/
theorem noDispose_afterInteractive (o : Opts) (w : Oracle) (p : List Char)
    (ri : RunState × Bool) (h : NoDispose ri.1) :
    NoDispose (afterInteractive o w p ri).1 := by
  unfold afterInteractive
  dsimp only
  repeat' split
  all_goals
    try dsimp only
    repeat
      first
      | exact h
      | rfl
      | apply noDispose_addEvent
      | apply noDispose_attempt
      | apply noDispose_attemptAll

/-- Helper: the whole `try` block never emits the dispose event. -/
theorem noDispose_deployTry (o : Opts) (w : Oracle) (p : List Char) :
    NoDispose (deployTry o w p).1 := by
  have h0 : NoDispose (⟨[Event.connected], 0⟩ : RunState) := by
    intro e he; simp at he; subst he; rfl
  have h1 : NoDispose (⟨[Event.connectFailed], 0⟩ : RunState) := by
    intro e he; simp at he; subst he; rfl
  unfold deployTry
  dsimp only
  repeat' split
  all_goals
    try dsimp only
    repeat
      first
      | exact h0
      | exact h1
      | rfl
      | apply noDispose_afterInteractive
      | apply noDispose_interactiveRun
      | apply noDispose_addEvent
      | apply noDispose_attemptAll
      | apply noDispose_attempt

/-- C9: every run that reaches the connection phase — success, connection
failure, or a session-level error at any remote command, under any oracle —
emits the session-release (dispose) event exactly once before the process
ends. -/
theorem session_released_once (o : Opts) (w : Oracle)
    (h : passesPreflight o w = true) :
    ((deployRun o w).events.countP isDispose) = 1 := by
  unfold passesPreflight at h
  unfold deployRun
  cases hr : resolvedProject o w with
  | none => rw [hr] at h; exact absurd h (by simp)
  | some p =>
      rw [hr] at h
      simp only [Bool.and_eq_true] at h
      obtain ⟨⟨hv, hhost⟩, hkey⟩ := h
      have h1 : w.sshHost.isNone = false := by
        cases hh : w.sshHost
        · rw [hh] at hhost; exact absurd hhost (by decide)
        · rfl
      have h2 : w.sshKeyPath.isNone = false := by
        cases hh : w.sshKeyPath
        · rw [hh] at hkey; exact absurd hkey (by decide)
        · rfl
      dsimp only
      rw [if_neg (by simp [hv]), if_neg (by simp [h1, h2])]
      dsimp only
      rw [List.countP_append, List.countP_append]
      have hz : (deployTry o w p).1.evs.countP isDispose = 0 :=
        List.countP_eq_zero.mpr
          (fun e he => by simp [noDispose_deployTry o w p e he])
      rw [hz]
      cases (deployTry o w p).2 <;> simp [isDispose]

/-- Witness for C9 on a concrete reachable run. -/
theorem session_released_once_witness :
    passesPreflight (demoOpts true) (okOracle (fun _ => 0) []) = true ∧
    ((deployRun (demoOpts true) (okOracle (fun _ => 0) [])).events.countP
      isDispose) = 1 :=
  ⟨by decide, session_released_once _ _ (by decide)⟩

/-- Helper: the full trace of a `--yes` run over a reachable session, for any
exit-status assignment. -/
theorem deployRun_ok_yes (ex : Nat → Nat) (acts : List IAction) :
    deployRun (demoOpts true) (okOracle ex acts) =
      ⟨[Event.connected,
        Event.remoteCmd whoamiCmd (ex 0),
        Event.remoteCmd sudoICmd (ex 1),
        Event.remoteCmd safeDirQueryCmd (ex 2),
        Event.remoteCmd (chownCmd "/var/www/demo".data) (ex 3),
        Event.remoteCmd pullCmd (ex 4),
        Event.remoteCmd prismaGenCmd (ex 5),
        Event.remoteCmd buildCmd (ex 6),
        Event.remoteCmd (pm2Cmd "demo".data) (ex 7),
        Event.dispose], 0⟩ :=
  rfl

/-- C4 (counterexample): with project `demo`, framework `nestjs` and `--yes`,
a failed session establishment still ends the process with exit code 0 — the
catch block only logs, so the claimed exit code 1 is wrong. -/
theorem connect_failure_exit_counterexample :
    (deployRun (demoOpts true) connFailOracle).exitCode = 0 ∧
    ¬ (deployRun (demoOpts true) connFailOracle).exitCode = 1 := by
  decide

/-- C4 (amended): on a reachable session the scripted run performs connect,
preamble, pull, prisma generate, build and restart in order and exits 0
whatever exit statuses the remote commands return — in particular a non-zero
pull status; when connect fails, no remote command runs, teardown still
happens, and the process also exits 0 (the failure is only logged). -/
theorem deploy_exit_policy (ex : Nat → Nat) :
    (deployRun (demoOpts true) (okOracle ex [])).exitCode = 0 ∧
    (deployRun (demoOpts true) (okOracle ex [])).events =
      [Event.connected,
       Event.remoteCmd whoamiCmd (ex 0),
       Event.remoteCmd sudoICmd (ex 1),
       Event.remoteCmd safeDirQueryCmd (ex 2),
       Event.remoteCmd (chownCmd "/var/www/demo".data) (ex 3),
       Event.remoteCmd pullCmd (ex 4),
       Event.remoteCmd prismaGenCmd (ex 5),
       Event.remoteCmd buildCmd (ex 6),
       Event.remoteCmd (pm2Cmd "demo".data) (ex 7),
       Event.dispose] ∧
    (deployRun (demoOpts true) connFailOracle).exitCode = 0 ∧
    (deployRun (demoOpts true) connFailOracle).events =
      [Event.connectFailed, Event.deployFailedLog, Event.dispose] := by
  refine ⟨?_, ?_, by decide, by decide⟩
  · rw [deployRun_ok_yes ex []]
  · rw [deployRun_ok_yes ex []]

/-- Helper: on a never-failing session with framework `nestjs`, the
post-interactive tail appends exactly the two scripted build commands and the
PM2 restart. -/
theorem afterInteractive_okOracle (ex : Nat → Nat) (acts : List IAction)
    (p : List Char) (s : RunState) :
    afterInteractive (demoOpts false) (okOracle ex acts) p (s, false) =
      (⟨s.evs ++ [Event.remoteCmd prismaGenCmd (ex s.idx),
                  Event.remoteCmd buildCmd (ex (s.idx + 1)),
                  Event.remoteCmd (pm2Cmd p) (ex (s.idx + 2))],
        s.idx + 1 + 1 + 1⟩, false) := by
  have hfc : frameworkCmds (demoOpts false).framework =
      [prismaGenCmd, buildCmd] := by decide
  simp [afterInteractive, attemptAll, attempt, hfc, okOracle, demoOpts]

/-- C6 (counterexample): an interactive run (`--yes` absent) with framework
`nestjs` and an immediate Continue both enters the interactive loop and then
runs the scripted prisma-generate and build steps — the control flow passes
through both stages, not one of the two. -/
theorem interactive_and_scripted_counterexample :
    (deployRun (demoOpts false) (okOracle (fun _ => 0) [])).events.any isIE =
      true ∧
    Event.remoteCmd prismaGenCmd 0 ∈
      (deployRun (demoOpts false) (okOracle (fun _ => 0) [])).events ∧
    Event.remoteCmd buildCmd 0 ∈
      (deployRun (demoOpts false) (okOracle (fun _ => 0) [])).events := by
  decide

/-- C6 (amended): over a reachable, never-failing session with framework
`nestjs`, the scripted framework tasks (prisma generate, build) run in every
mode — after the interactive loop when interactive, directly when scripted —
and the interactive loop is entered exactly when `--yes` is absent, whatever
actions the user picks. -/
theorem scripted_tasks_in_both_modes (yes : Bool) (acts : List IAction)
    (ex : Nat → Nat) :
    ((deployRun (demoOpts yes) (okOracle ex acts)).events.any isIE = !yes) ∧
    (∃ e, Event.remoteCmd prismaGenCmd e ∈
      (deployRun (demoOpts yes) (okOracle ex acts)).events) ∧
    (∃ e, Event.remoteCmd buildCmd e ∈
      (deployRun (demoOpts yes) (okOracle ex acts)).events) := by
  cases yes with
  | true =>
      rw [deployRun_ok_yes ex acts]
      refine ⟨by simp [isIE], ⟨ex 5, by simp⟩, ⟨ex 6, by simp⟩⟩
  | false =>
      have hfa : deployTry (demoOpts false) (okOracle ex acts) "demo".data =
          afterInteractive (demoOpts false) (okOracle ex acts) "demo".data
            (interactiveRun (okOracle ex acts) "/var/www/demo".data
              (acts.filter (actionAvailable (some "nestjs".data)))
              ⟨[Event.connected, Event.remoteCmd whoamiCmd (ex 0),
                Event.remoteCmd sudoICmd (ex 1),
                Event.remoteCmd safeDirQueryCmd (ex 2),
                Event.remoteCmd (chownCmd "/var/www/demo".data) (ex 3),
                Event.remoteCmd pullCmd (ex 4),
                Event.interactiveEntered], 5⟩) := rfl
      set ri := interactiveRun (okOracle ex acts) "/var/www/demo".data
          (acts.filter (actionAvailable (some "nestjs".data)))
          ⟨[Event.connected, Event.remoteCmd whoamiCmd (ex 0),
            Event.remoteCmd sudoICmd (ex 1),
            Event.remoteCmd safeDirQueryCmd (ex 2),
            Event.remoteCmd (chownCmd "/var/www/demo".data) (ex 3),
            Event.remoteCmd pullCmd (ex 4),
            Event.interactiveEntered], 5⟩ with hri
      have hth : ri.2 = false := by
        rw [hri]
        exact interactiveRun_noFail (okOracle ex acts) (fun i => rfl) _ _ _
      have heta : ri = (ri.1, false) := by
        rw [← hth]
      obtain ⟨Δ, hΔ, hcm⟩ := interactiveRun_evs (okOracle ex acts)
        "/var/www/demo".data
        (acts.filter (actionAvailable (some "nestjs".data)))
        ⟨[Event.connected, Event.remoteCmd whoamiCmd (ex 0),
          Event.remoteCmd sudoICmd (ex 1),
          Event.remoteCmd safeDirQueryCmd (ex 2),
          Event.remoteCmd (chownCmd "/var/www/demo".data) (ex 3),
          Event.remoteCmd pullCmd (ex 4),
          Event.interactiveEntered], 5⟩
      have hΔr : ri.1.evs =
          [Event.connected, Event.remoteCmd whoamiCmd (ex 0),
           Event.remoteCmd sudoICmd (ex 1),
           Event.remoteCmd safeDirQueryCmd (ex 2),
           Event.remoteCmd (chownCmd "/var/www/demo".data) (ex 3),
           Event.remoteCmd pullCmd (ex 4),
           Event.interactiveEntered] ++ Δ := hΔ
      have h1 : deployTry (demoOpts false) (okOracle ex acts) "demo".data =
          (⟨ri.1.evs ++ [Event.remoteCmd prismaGenCmd (ex ri.1.idx),
              Event.remoteCmd buildCmd (ex (ri.1.idx + 1)),
              Event.remoteCmd (pm2Cmd "demo".data) (ex (ri.1.idx + 2))],
            ri.1.idx + 1 + 1 + 1⟩, false) := by
        rw [hfa, heta]
        exact afterInteractive_okOracle ex acts "demo".data ri.1
      have h3 : deployRun (demoOpts false) (okOracle ex acts) =
          ⟨((deployTry (demoOpts false) (okOracle ex acts) "demo".data).1.evs
              ++ (if (deployTry (demoOpts false) (okOracle ex acts)
                    "demo".data).2 = true
                  then [Event.deployFailedLog] else []))
            ++ [Event.dispose], 0⟩ := rfl
      rw [h3, h1]
      dsimp only
      rw [hΔr]
      refine ⟨by simp [isIE], ⟨ex ri.1.idx, by simp⟩,
        ⟨ex (ri.1.idx + 1), by simp⟩⟩
